import Mathlib

set_option maxRecDepth 4000

/-!
Verification of `generate-stats.js`.

A shallow embedding of the single-file batch script `generate-stats.js`,
which fetches a user's repository list, aggregates primary-language counts,
and renders a themed SVG donut chart with a legend.

Modelling conventions:
* A JavaScript repository record is modelled by its only relevant field,
  the optional `language` string; `none` models `null`/absent, and the JS
  truthiness test `!repo.language` additionally treats `""` as absent.
* The ES `Map` used for counting preserves first-insertion key order, so it
  is modelled as an association list in which `set` on a fresh key appends
  at the end (`bump`).
* `Array.prototype.sort` is stable (required by the ECMAScript standard);
  with the comparator `(a, b) => b[1] - a[1]` it produces the unique stable
  descending-by-count order, modelled by `List.mergeSort` with the total
  preorder `langLE a b := b.2 ≤ a.2`.
* The one network call is modelled by passing the `HttpResponse` the
  transport would deliver as an explicit argument; mock mode never looks at
  it.
* Angles in the donut geometry are exact rationals measured in units of π
  radians (the value `1` means π radians), so `-π/2` is `-(1/2)` and the
  large-arc test `angle > Math.PI` is `1 < angle`.
* The floating-point decimal text of path coordinates and legend
  percentages is not modelled; the SVG document template is modelled
  exactly, with the donut-path and legend markup passed as opaque strings,
  while their geometric content (angles, arc flags, palette indices,
  percentage values) is modelled by `generateDonutChart`/`generateLegend`.
-/

namespace MyStats

/-- A repository record as consumed by the script: only the primary
`language` field matters.  `none` models a `null`/absent language. -/
structure Repo where
  language : Option String
deriving DecidableEq

/-- The language of a record under JS truthiness (`!repo.language`):
`null`/absent and the empty string are both skipped. -/
def langOf (r : Repo) : Option String :=
  match r.language with
  | none => none
  | some s => if s = "" then none else some s

/-- The sequence of languages of the records that pass the truthiness
test, in record order. -/
def langsOf (repos : List Repo) : List String :=
  repos.filterMap langOf

/-- The update `counts.set(lang, (counts.get(lang) || 0) + 1)` on an insertion-ordered
map: increment the entry of `k` in place, or append `(k, 1)` at the end. -/
def bump : List (String × Nat) → String → List (String × Nat)
  | [], k => [(k, 1)]
  | (k', c) :: rest, k =>
      if k' = k then (k', c + 1) :: rest else (k', c) :: bump rest k

/-- The counting loop of `aggregateLanguages` (lines 108–115): the final
contents of the `counts` map, as an association list in first-seen key
order. -/
def countsOf (repos : List Repo) : List (String × Nat) :=
  (langsOf repos).foldl bump []

/-- The counter `totalCount` is incremented once per record that passes the truthiness
test (line 114). -/
def totalCountOf (repos : List Repo) : Nat :=
  (langsOf repos).length

/-- The comparator `(a, b) => b[1] - a[1]` as a total preorder: `a` may
come before `b` iff `b.2 ≤ a.2` (descending by count). -/
def langLE (a b : String × Nat) : Bool :=
  decide (b.2 ≤ a.2)

/-- The sort `[...counts.entries()].sort((a, b) => b[1] - a[1])` (lines 117–118):
the stable descending-by-count sort of the counts map. -/
def sortedLanguages (repos : List Repo) : List (String × Nat) :=
  (countsOf repos).mergeSort langLE

/-- One `{ name, count }` entry of the aggregation result (`lang` in the
source). -/
structure TopLanguageEntry where
  lang : String
  count : Nat
deriving DecidableEq

/-- The kept entries `sortedLanguages.slice(0, 5).map(([lang, count]) => ({lang, count}))`
(lines 120–122). -/
def keptEntries (repos : List Repo) : List TopLanguageEntry :=
  ((sortedLanguages repos).take 5).map fun p => ⟨p.1, p.2⟩

/-- The fold `topLanguages.reduce((sum, item) => sum + item.count, 0)` (line 124). -/
def topSumOf (repos : List Repo) : Nat :=
  (keptEntries repos).foldl (fun sum item => sum + item.count) 0

/-- The aggregation result `{ topLanguages, totalCount }`. -/
structure Stats where
  topLanguages : List TopLanguageEntry
  totalCount : Nat
deriving DecidableEq

/-- The aggregator `aggregateLanguages` (lines 107–134): keep the top five languages by
count and, when `totalCount > topSum`, append the synthetic entry
`{lang: "Others", count: totalCount - topSum}`. -/
def aggregateLanguages (repos : List Repo) : Stats :=
  let topLanguages := keptEntries repos
  let totalCount := totalCountOf repos
  let topSum := topSumOf repos
  if topSum < totalCount then
    ⟨topLanguages ++ [⟨"Others", totalCount - topSum⟩], totalCount⟩
  else
    ⟨topLanguages, totalCount⟩

/-- The hardcoded fixture list `MOCK_REPOS` (lines 56–63). -/
def MOCK_REPOS : List Repo :=
  [⟨some "JavaScript"⟩, ⟨some "JavaScript"⟩, ⟨some "JavaScript"⟩,
   ⟨some "TypeScript"⟩, ⟨some "TypeScript"⟩,
   ⟨some "Python"⟩, ⟨some "Python"⟩,
   ⟨some "HTML"⟩, ⟨some "CSS"⟩,
   ⟨some "PHP"⟩, ⟨some "PHP"⟩,
   ⟨some "Ruby"⟩, ⟨some "Ruby"⟩, ⟨some "Ruby"⟩, ⟨some "Ruby"⟩]

/-- The environment-driven configuration read at startup (lines 8–14 and
line 90): `GITHUB_USER`, `GITHUB_TOKEN`, `THEME_MODE` (already defaulted
to `"adaptive"` by `|| 'adaptive'`), and `MOCK_DATA === 'true'`. -/
structure Config where
  user : Option String
  token : Option String
  themeMode : String
  mockData : Bool

/-- JS falsiness of `USER` in `if (!USER)` (line 95): absent or empty. -/
def userMissing (cfg : Config) : Bool :=
  match cfg.user with
  | none => true
  | some s => decide (s = "")

/-- The error kinds of the run, as named by the specification; each one is
raised as a thrown `Error` in the source. -/
inductive RunError where
  | ConfigurationError (msg : String)
  | RemoteFetchError (status : Nat) (statusText : String)
  | ParseError (msg : String)
deriving DecidableEq

/-- The human-readable message of the thrown `Error`. The fetch failure
message is built on line 100:
`Failed to fetch repos: ${res.status} ${res.statusText}`. -/
def RunError.message : RunError → String
  | .ConfigurationError msg => msg
  | .RemoteFetchError status statusText =>
      "Failed to fetch repos: " ++ toString status ++ " " ++ statusText
  | .ParseError msg => msg

/-- The HTTP response the transport would deliver for the one repository
listing call.  `body` is the result of `res.json()`: `none` when the body
is not valid structured data. -/
structure HttpResponse where
  ok : Bool
  status : Nat
  statusText : String
  body : Option (List Repo)

/-- The repository source `getRepositories` (lines 89–105): mock mode returns the fixture list
without looking at the network; otherwise the identity is required, a
non-success response is a fetch error, and an unparseable body is a parse
error. -/
def getRepositories (cfg : Config) (resp : HttpResponse) :
    Except RunError (List Repo) :=
  if cfg.mockData then
    .ok MOCK_REPOS
  else if userMissing cfg then
    .error (.ConfigurationError "GITHUB_USER environment variable is required.")
  else if !resp.ok then
    .error (.RemoteFetchError resp.status resp.statusText)
  else
    match resp.body with
    | none => .error (.ParseError "invalid JSON body")
    | some repos => .ok repos

/-- The observable outcome of one run of `main` (lines 67–85): a file
written with given name and content, the logged no-op early exit, or a
surfaced fatal error. -/
inductive RunOutcome where
  | wroteFile (name : String) (content : String)
  | noOutput (logMsg : String)
  | failed (err : RunError)
deriving DecidableEq

/-- The process exit code: `process.exit(1)` in the catch block (line 83),
`0` otherwise. -/
def exitCode : RunOutcome → Nat
  | .failed _ => 1
  | _ => 0

/-- The files written by the run: `fs.writeFileSync("stats.svg", ...)` is
the only write (line 78), and it is reached only on the success path. -/
def filesWritten : RunOutcome → List String
  | .wroteFile name _ => [name]
  | _ => []

/-- A theme palette (the `THEME.light` / `THEME.dark` objects, lines
20–49). -/
structure ThemeDef where
  background : String
  textTitle : String
  textLegend : String
  palette : List String
deriving DecidableEq

/-- The table `THEME.light` (lines 21–34). -/
def THEME_light : ThemeDef :=
  { background := "#ffffff"
    textTitle := "#2f3640"
    textLegend := "#636e72"
    palette := ["#4caf50", "#009688", "#cddc39", "#ff9800", "#795548", "#607d8b"] }

/-- The table `THEME.dark` (lines 35–48). -/
def THEME_dark : ThemeDef :=
  { background := "#0f1914"
    textTitle := "#aaccbb"
    textLegend := "#e0e0e0"
    palette := ["#66bb6a", "#26a69a", "#d4e157", "#ffa726", "#8d6e63", "#78909c"] }

/-- The palette lines `theme.palette.map((c, i) => `--color-${i}: ${c}`).join('; ')`
(line 151). -/
def paletteCSS (palette : List String) : String :=
  String.intercalate "; "
    (palette.enum.map fun p => "--color-" ++ toString p.1 ++ ": " ++ p.2)

/-- The `genCSS` helper (lines 147–152): the CSS custom-property lines of
one theme. -/
def genCSS (theme : ThemeDef) : String :=
  "\n        --bg-color: " ++ theme.background ++
  ";\n        --text-title: " ++ theme.textTitle ++
  ";\n        --text-legend: " ++ theme.textLegend ++
  ";\n        " ++ paletteCSS theme.palette ++ ";\n    "

/-- The default (light) scope of the adaptive style (line 163). -/
def adaptiveDefaultScope : String :=
  "\n            :root \x7b " ++ genCSS THEME_light ++ " \x7d\n            "

/-- The dark scope of the adaptive style, conditioned on the viewer's
system color-scheme preference (lines 164–167). -/
def adaptiveDarkScope : String :=
  "@media (prefers-color-scheme: dark) \x7b\n                :root \x7b " ++
  genCSS THEME_dark ++ " \x7d\n            \x7d\n        "

/-- The style selection `styleContent` (lines 154–168): light and dark emit a single `:root`
scope; any other mode takes the adaptive branch. -/
def styleContent (themeMode : String) : String :=
  if themeMode = "light" then
    ":root \x7b " ++ genCSS THEME_light ++ " \x7d"
  else if themeMode = "dark" then
    ":root \x7b " ++ genCSS THEME_dark ++ " \x7d"
  else
    adaptiveDefaultScope ++ adaptiveDarkScope

/-- The opening of the `<style>` element (lines 170–172). -/
def styleHead : String :=
  "\n        <style>\n            "

/-- The fixed CSS rules after `styleContent` and the closing of the
`<style>` element (lines 173–180). -/
def styleTail : String :=
  "\n            text \x7b font-family: -apple-system, BlinkMacSystemFont, \"Segoe UI\", Helvetica, Arial, sans-serif; \x7d\n            .bg \x7b fill: var(--bg-color); \x7d\n            .title \x7b fill: var(--text-title); font-weight: bold; font-size: 18px; \x7d\n            .legend-text \x7b fill: var(--text-legend); font-size: 14px; \x7d\n            .legend-percent \x7b fill: var(--text-legend); opacity: 0.7; font-size: 12px; \x7d\n            .decoration \x7b fill: var(--text-title); opacity: 0.1; \x7d\n        </style>\n    "

/-- The `<style>` element (lines 170–180). -/
def styleBlock (themeMode : String) : String :=
  styleHead ++ styleContent themeMode ++ styleTail

/-- The decorative shapes (lines 183–188). -/
def decorationsMarkup : String :=
  "\n        <circle cx=\"30\" cy=\"180\" r=\"4\" class=\"decoration\" />\n        <circle cx=\"380\" cy=\"30\" r=\"6\" class=\"decoration\" />\n        <path d=\"M 50 160 L 52 165 L 58 165 L 53 169 L 55 175 L 50 171 L 45 175 L 47 169 L 42 165 L 48 165 Z\" class=\"decoration\" transform=\"rotate(-15 50 160)\"/>\n        <path d=\"M 350 180 q 5 -5 10 0 q 5 -5 10 0 q -10 10 -20 0\" class=\"decoration\" fill=\"none\" stroke=\"currentColor\" stroke-width=\"2\" />\n    "

/-- The opening `<svg>` tag (line 191). -/
def svgOpenTag : String :=
  "\n        <svg width=\"400\" height=\"200\" viewBox=\"0 0 400 200\" xmlns=\"http://www.w3.org/2000/svg\">\n            "

/-- The background rectangle and the decorations comment (lines
193–196). -/
def rectBgMarkup : String :=
  "\n            <rect width=\"100%\" height=\"100%\" class=\"bg\" rx=\"10\"/>\n            \n            <!-- Decorations -->\n            "

/-- The title line and the `<g>` opening the donut group (lines
198–199). -/
def titleOpenG : String :=
  "\n\n            <text x=\"20\" y=\"30\" class=\"title\">✨ Top Languages by Repo</text>\n            <g>"

/-- The document text up to and including the `<g>` that holds the donut
markup (lines 191–199). -/
def svgPre (themeMode : String) : String :=
  svgOpenTag ++ styleBlock themeMode ++ rectBgMarkup ++ decorationsMarkup
    ++ titleOpenG

/-- The document text between the donut and legend groups (lines
199–200). -/
def svgMid : String :=
  "</g>\n            <g>"

/-- The document text after the legend group (lines 200–202). -/
def svgPost : String :=
  "</g>\n        </svg>\n    "

/-- The document template `generateSVG` (lines 142–203).  The donut-path and legend markup are
passed as opaque strings: their numeric coordinate text comes from
floating-point formatting that is not modelled (the geometric content is
modelled by `generateDonutChart` and `generateLegend` below); everything
else of the template is modelled exactly. -/
def generateSVG (themeMode chart legend : String) : String :=
  svgPre themeMode ++ chart ++ svgMid ++ legend ++ svgPost

/-- The driver `main` (lines 67–85), parameterised by the string renderers for the
donut and legend markup (see `generateSVG`). -/
def main (chartMarkup legendMarkup : List TopLanguageEntry → Nat → String)
    (cfg : Config) (resp : HttpResponse) : RunOutcome :=
  match getRepositories cfg resp with
  | .error e => .failed e
  | .ok repos =>
      let stats := aggregateLanguages repos
      if stats.totalCount = 0 then
        .noOutput "No languages found."
      else
        .wroteFile "stats.svg"
          (generateSVG cfg.themeMode
            (chartMarkup stats.topLanguages stats.totalCount)
            (legendMarkup stats.topLanguages stats.totalCount))

/-- One wedge of the donut chart, as emitted by `generateDonutChart`
(lines 205–234).  Angles are exact rationals in units of π radians (the
value `1` means π radians), so the initial offset `-Math.PI / 2` is
`-(1/2)` and one full turn is `2`.  `largeArc` is the large-arc path flag
of the outer arc, `sweepFlag` its sweep-direction flag (the literal `1`,
clockwise, in the path template on line 228), and `colorIdx` the palette
index `i % 6` used in `var(--color-${i % 6})` (line 223). -/
structure Wedge where
  startAngle : ℚ
  endAngle : ℚ
  largeArc : Nat
  sweepFlag : Nat
  colorIdx : Nat
deriving DecidableEq

/-- The body of `data.map((d, i) => ...)` with the running mutable
`offset` (lines 209–234): `angle = (d.count / totalCount) * 2π`, wedge
from `offset` to `offset + angle`, large-arc flag `angle > π ? 1 : 0`. -/
def donutWedges (totalCount : Nat) :
    List TopLanguageEntry → Nat → ℚ → List Wedge
  | [], _, _ => []
  | d :: rest, i, offset =>
      let angle : ℚ := ((d.count : ℚ) / (totalCount : ℚ)) * 2
      { startAngle := offset
        endAngle := offset + angle
        largeArc := if 1 < angle then 1 else 0
        sweepFlag := 1
        colorIdx := i % 6 } :: donutWedges totalCount rest (i + 1) (offset + angle)

/-- The wedge sequence `generateDonutChart` (lines 205–234): wedges in entry order, starting
at 12 o'clock (`offset = -Math.PI / 2`, i.e. `-(1/2)` in units of π). -/
def generateDonutChart (data : List TopLanguageEntry) (totalCount : Nat) :
    List Wedge :=
  donutWedges totalCount data 0 (-(1 / 2 : ℚ))

/-- One legend row, as emitted by `generateLegend` (lines 237–252).
`y` is the row's vertical position `startY + i * lineHeight`, `colorIdx`
the palette index `i % 6` of the 12×12 swatch, and `percent` the exact
value `(d.count / totalCount) * 100` whose `.toFixed(1)` text is printed
(the decimal formatting itself is not modelled). -/
structure LegendRow where
  y : Nat
  colorIdx : Nat
  lang : String
  percent : ℚ
deriving DecidableEq

/-- The legend rows `generateLegend` (lines 237–252). -/
def generateLegend (data : List TopLanguageEntry) (totalCount : Nat) :
    List LegendRow :=
  data.enum.map fun p =>
    { y := 50 + p.1 * 25
      colorIdx := p.1 % 6
      lang := p.2.lang
      percent := ((p.2.count : ℚ) / (totalCount : ℚ)) * 100 }

/-! Derived notions used in statements and proofs -/

/-- First-seen deduplication of a string sequence, skipping keys already
in `seen`; `firstSeenFrom [] ls` is the first-occurrence order of the
distinct elements of `ls`, which is exactly the key order of the counting
map. -/
def firstSeenFrom (seen : List String) : List String → List String
  | [] => []
  | k :: ks =>
      if k ∈ seen then firstSeenFrom seen ks
      else k :: firstSeenFrom (k :: seen) ks

/-- Index of the first occurrence of `a` in `l` (`l.length` when
absent). -/
def firstIdx (a : String) : List String → Nat
  | [] => 0
  | b :: l => if b = a then 0 else firstIdx a l + 1

/-- Proposition that `pat` occurs as a contiguous substring of `s`. -/
abbrev occursIn (pat s : String) : Prop :=
  pat.data <:+: s.data

/-- No `'#'` character occurs in `s`.  The donut and legend markup
produced by the script reference colors only through `var(--color-i)`
and `var(--bg-color)`, so they satisfy this. -/
def hashFree (s : String) : Bool :=
  s.data.all (· ≠ '#')

/-- Decidable precheck of a color value `v` against a closed document
part `T`: `v` does not occur in `T`, no nonempty proper prefix of `v` is
a suffix of `T` (so no occurrence can straddle the border between `T` and
a `'#'`-free continuation), and `v` contains `'#'`. -/
def colorAbsent (v T : String) : Bool :=
  decide (¬ v.data <:+: T.data) &&
  decide (∀ k, k < v.data.length → 0 < k → ¬ v.data.take k <:+ T.data) &&
  decide ('#' ∈ v.data)

/-- The color values of a theme: background, title text, legend text and
the six palette entries. -/
def themeValues (t : ThemeDef) : List String :=
  t.background :: t.textTitle :: t.textLegend :: t.palette

/-- The nine color values of the light theme. -/
def lightValues : List String := themeValues THEME_light

/-- The nine color values of the dark theme. -/
def darkValues : List String := themeValues THEME_dark

/-- One entry's angular sweep `(count / totalCount) * 2π`, in units of π
radians. -/
def sweepOf (totalCount : Nat) (d : TopLanguageEntry) : ℚ :=
  ((d.count : ℚ) / (totalCount : ℚ)) * 2

/-- The cumulative angle consumed by the first `j` entries. -/
def cumAngle (totalCount : Nat) (data : List TopLanguageEntry) (j : Nat) : ℚ :=
  ((data.take j).map (sweepOf totalCount)).sum

/-! Lemmas about the counting fold -/

/-- The sum of the counts stored in an association list. -/
def sumVals (l : List (String × Nat)) : Nat :=
  (l.map Prod.snd).sum

theorem sumVals_bump (l : List (String × Nat)) (k : String) :
    sumVals (bump l k) = sumVals l + 1 := by
  induction l with
  | nil => simp [bump, sumVals]
  | cons p rest ih =>
      obtain ⟨k', c⟩ := p
      by_cases h : k' = k
      · simp [bump, h, sumVals]
        omega
      · simp only [bump, if_neg h, sumVals, List.map_cons, List.sum_cons] at ih ⊢
        omega

theorem sumVals_foldl (ls : List String) :
    ∀ acc : List (String × Nat),
      sumVals (ls.foldl bump acc) = sumVals acc + ls.length := by
  induction ls with
  | nil => intro acc; simp
  | cons k ks ih =>
      intro acc
      simp only [List.foldl_cons, ih, sumVals_bump, List.length_cons]
      omega

theorem sumVals_countsOf (repos : List Repo) :
    sumVals (countsOf repos) = totalCountOf repos := by
  rw [countsOf, sumVals_foldl, totalCountOf]
  simp [sumVals]

theorem pos_of_mem_bump (l : List (String × Nat)) (k : String)
    (hl : ∀ p ∈ l, 0 < p.2) : ∀ p ∈ bump l k, 0 < p.2 := by
  induction l with
  | nil => simp [bump]
  | cons q rest ih =>
      obtain ⟨k', c⟩ := q
      by_cases h : k' = k
      · simp only [bump, if_pos h]
        intro p hp
        rcases List.mem_cons.mp hp with rfl | hp
        · simp
        · exact hl p (List.mem_cons_of_mem _ hp)
      · simp only [bump, if_neg h]
        intro p hp
        rcases List.mem_cons.mp hp with rfl | hp
        · exact hl _ (List.mem_cons_self _ _)
        · exact ih (fun q hq => hl q (List.mem_cons_of_mem _ hq)) p hp

theorem pos_of_mem_countsOf (repos : List Repo) :
    ∀ p ∈ countsOf repos, 0 < p.2 := by
  suffices h : ∀ (ls : List String) (acc : List (String × Nat)),
      (∀ p ∈ acc, 0 < p.2) → ∀ p ∈ ls.foldl bump acc, 0 < p.2 by
    exact h (langsOf repos) [] (by simp)
  intro ls
  induction ls with
  | nil => intro acc hacc; simpa using hacc
  | cons k ks ih =>
      intro acc hacc
      exact ih (bump acc k) (pos_of_mem_bump acc k hacc)

/-! Lemmas about the sorted language list -/

theorem sortedLanguages_perm (repos : List Repo) :
    List.Perm (sortedLanguages repos) (countsOf repos) :=
  List.mergeSort_perm _ _

theorem sumVals_sorted (repos : List Repo) :
    sumVals (sortedLanguages repos) = totalCountOf repos := by
  rw [← sumVals_countsOf repos]
  exact List.Perm.sum_eq (List.Perm.map Prod.snd (sortedLanguages_perm repos))

theorem topSumOf_eq (repos : List Repo) :
    topSumOf repos = sumVals ((sortedLanguages repos).take 5) := by
  have h : ∀ (l : List TopLanguageEntry) (n : Nat),
      l.foldl (fun sum item => sum + item.count) n
        = n + (l.map TopLanguageEntry.count).sum := by
    intro l
    induction l with
    | nil => simp
    | cons e rest ih =>
        intro n
        simp only [List.foldl_cons, List.map_cons, List.sum_cons, ih]
        omega
  simp only [topSumOf, keptEntries, h, sumVals, List.map_map, Nat.zero_add]
  rfl

theorem keptEntries_sum (repos : List Repo) :
    ((keptEntries repos).map TopLanguageEntry.count).sum
      = sumVals ((sortedLanguages repos).take 5) := by
  simp only [keptEntries, sumVals, List.map_map]
  rfl

theorem topSumOf_le (repos : List Repo) :
    topSumOf repos ≤ totalCountOf repos := by
  rw [topSumOf_eq, ← sumVals_sorted repos]
  conv_rhs => rw [← List.take_append_drop 5 (sortedLanguages repos)]
  simp only [sumVals, List.map_append, List.sum_append]
  omega

theorem totalCountOf_eq_filter (repos : List Repo) :
    totalCountOf repos = (repos.filter fun r => (langOf r).isSome).length := by
  unfold totalCountOf langsOf
  induction repos with
  | nil => simp
  | cons r rest ih =>
      cases h : langOf r <;>
        simp [List.filterMap_cons, List.filter_cons, h, ih]

theorem keys_bump (l : List (String × Nat)) (k : String) :
    (bump l k).map Prod.fst =
      if k ∈ l.map Prod.fst then l.map Prod.fst
      else l.map Prod.fst ++ [k] := by
  induction l with
  | nil => simp [bump]
  | cons p rest ih =>
      obtain ⟨k', c⟩ := p
      by_cases h : k' = k
      · simp [bump, h]
      · by_cases hk : k ∈ rest.map Prod.fst
        · simp [bump, h, ih, hk, List.mem_cons, Ne.symm h]
        · simp [bump, h, ih, hk, List.mem_cons, Ne.symm h]

theorem mem_keys_foldl (ls : List String) :
    ∀ acc : List (String × Nat), ∀ a : String,
      (a ∈ (ls.foldl bump acc).map Prod.fst
        ↔ a ∈ acc.map Prod.fst ∨ a ∈ ls) := by
  induction ls with
  | nil => simp
  | cons k ks ih =>
      intro acc a
      rw [List.foldl_cons, ih, keys_bump]
      by_cases hk : k ∈ acc.map Prod.fst
      · rw [if_pos hk]
        simp only [List.mem_cons]
        constructor
        · rintro (h | h)
          · exact Or.inl h
          · exact Or.inr (Or.inr h)
        · rintro (h | rfl | h)
          · exact Or.inl h
          · exact Or.inl hk
          · exact Or.inr h
      · rw [if_neg hk]
        simp only [List.mem_append, List.mem_singleton, List.mem_cons]
        tauto

theorem nodup_keys_foldl (ls : List String) :
    ∀ acc : List (String × Nat), (acc.map Prod.fst).Nodup →
      ((ls.foldl bump acc).map Prod.fst).Nodup := by
  induction ls with
  | nil => intro acc h; simpa
  | cons k ks ih =>
      intro acc h
      rw [List.foldl_cons]
      apply ih
      rw [keys_bump]
      by_cases hk : k ∈ acc.map Prod.fst
      · simpa [hk]
      · simp [hk, List.nodup_append, h]

theorem nodup_keys_countsOf (repos : List Repo) :
    ((countsOf repos).map Prod.fst).Nodup :=
  nodup_keys_foldl (langsOf repos) [] (by simp)

theorem mem_keys_countsOf (repos : List Repo) (a : String) :
    a ∈ (countsOf repos).map Prod.fst ↔ a ∈ langsOf repos := by
  simpa [countsOf] using mem_keys_foldl (langsOf repos) [] a

theorem length_countsOf (repos : List Repo) :
    (countsOf repos).length = (langsOf repos).dedup.length := by
  have hperm : List.Perm ((countsOf repos).map Prod.fst)
      (langsOf repos).dedup := by
    rw [List.perm_ext_iff_of_nodup (nodup_keys_countsOf repos)
      (List.nodup_dedup _)]
    intro a
    rw [mem_keys_countsOf, List.mem_dedup]
  simpa using hperm.length_eq

theorem sumVals_drop_pos_iff (repos : List Repo) :
    0 < sumVals ((sortedLanguages repos).drop 5)
      ↔ 5 < (sortedLanguages repos).length := by
  constructor
  · intro hpos
    by_contra hle
    have : (sortedLanguages repos).drop 5 = [] :=
      List.drop_eq_nil_of_le (by omega)
    rw [this] at hpos
    simp [sumVals] at hpos
  · intro hlt
    cases hd : (sortedLanguages repos).drop 5 with
    | nil =>
        have := congrArg List.length hd
        simp [List.length_drop] at this
        omega
    | cons p rest =>
        have hp : p ∈ countsOf repos := by
          have hmem : p ∈ (sortedLanguages repos).drop 5 := by
            rw [hd]; exact List.mem_cons_self _ _
          have := List.drop_subset 5 (sortedLanguages repos) hmem
          exact (sortedLanguages_perm repos).subset this
        have hppos := pos_of_mem_countsOf repos p hp
        simp only [sumVals, List.map_cons, List.sum_cons]
        omega

theorem others_cond_iff (repos : List Repo) :
    topSumOf repos < totalCountOf repos
      ↔ 5 < (langsOf repos).dedup.length := by
  rw [← length_countsOf, ← (sortedLanguages_perm repos).length_eq]
  have hsplit : totalCountOf repos
      = sumVals ((sortedLanguages repos).take 5)
        + sumVals ((sortedLanguages repos).drop 5) := by
    rw [← sumVals_sorted repos]
    conv_lhs => rw [← List.take_append_drop 5 (sortedLanguages repos)]
    simp [sumVals, List.map_append, List.sum_append]
  rw [topSumOf_eq, hsplit, ← sumVals_drop_pos_iff]
  omega

theorem aggregate_totalCount (repos : List Repo) :
    (aggregateLanguages repos).totalCount = totalCountOf repos := by
  simp only [aggregateLanguages]
  split <;> rfl

theorem aggregate_top_pos (repos : List Repo)
    (h : topSumOf repos < totalCountOf repos) :
    (aggregateLanguages repos).topLanguages
      = keptEntries repos
        ++ [⟨"Others", totalCountOf repos - topSumOf repos⟩] := by
  simp [aggregateLanguages, h]

theorem aggregate_top_neg (repos : List Repo)
    (h : ¬ topSumOf repos < totalCountOf repos) :
    (aggregateLanguages repos).topLanguages = keptEntries repos := by
  simp [aggregateLanguages, h]

/-! Claim theorems about the aggregation -/

/-- C1. For every sequence of repository records, the sum of the
counts of all `topLanguages` entries of `aggregateLanguages` (including
the synthetic `"Others"` entry when present) equals `totalCount`, and
`totalCount` equals the number of input records whose language field is
non-empty/non-absent. -/
theorem C1_counts_sum_eq_totalCount (repos : List Repo) :
    (((aggregateLanguages repos).topLanguages.map
        TopLanguageEntry.count).sum
      = (aggregateLanguages repos).totalCount) ∧
    ((aggregateLanguages repos).totalCount
      = (repos.filter fun r => (langOf r).isSome).length) := by
  refine ⟨?_, ?_⟩
  · rw [aggregate_totalCount]
    by_cases h : topSumOf repos < totalCountOf repos
    · rw [aggregate_top_pos repos h]
      simp only [List.map_append, List.sum_append, List.map_cons,
        List.sum_cons, List.map_nil, List.sum_nil]
      rw [keptEntries_sum, ← topSumOf_eq]
      omega
    · rw [aggregate_top_neg repos h]
      have hle := topSumOf_le repos
      rw [keptEntries_sum, ← topSumOf_eq]
      omega
  · rw [aggregate_totalCount, totalCountOf_eq_filter]

/-- C2. The `"Others"` entry is appended to the kept top-five entries
if and only if more than 5 distinct languages have non-zero counts; its
count is `totalCount - topSum`; and it is appended only when that
remainder is positive. -/
theorem C2_others_entry (repos : List Repo) :
    ((aggregateLanguages repos).topLanguages
        = keptEntries repos
          ++ [⟨"Others", totalCountOf repos - topSumOf repos⟩]
      ↔ 5 < (langsOf repos).dedup.length) ∧
    (¬ 5 < (langsOf repos).dedup.length →
      (aggregateLanguages repos).topLanguages = keptEntries repos) ∧
    (5 < (langsOf repos).dedup.length →
      0 < totalCountOf repos - topSumOf repos) := by
  have hiff := others_cond_iff repos
  refine ⟨⟨?_, ?_⟩, ?_, ?_⟩
  · intro heq
    by_cases h : topSumOf repos < totalCountOf repos
    · exact hiff.mp h
    · rw [aggregate_top_neg repos h] at heq
      have hlen := congrArg List.length heq
      simp only [List.length_append, List.length_cons, List.length_nil]
        at hlen
      omega
  · intro h5
    exact aggregate_top_pos repos (hiff.mpr h5)
  · intro h5
    exact aggregate_top_neg repos fun h => h5 (hiff.mp h)
  · intro h5
    have := hiff.mpr h5
    omega

/-- Witness for C2: on the mock fixture set, 7 distinct languages occur,
so the `"Others"` entry is appended. -/
theorem C2_others_entry_witness :
    (aggregateLanguages MOCK_REPOS).topLanguages
      = keptEntries MOCK_REPOS
        ++ [⟨"Others", totalCountOf MOCK_REPOS - topSumOf MOCK_REPOS⟩] :=
  ((C2_others_entry MOCK_REPOS).1).mpr (by decide)

/-- C9. On the mock fixture set (15 records, 7 languages),
`aggregateLanguages` returns `totalCount = 15`, the kept top five
`Ruby(4), JavaScript(3), TypeScript(2), Python(2), PHP(2)` in
descending-count order, followed by `Others` with count 2 (HTML + CSS),
all counts summing to 15. -/
theorem C9_mock_aggregation :
    aggregateLanguages MOCK_REPOS
      = ⟨[⟨"Ruby", 4⟩, ⟨"JavaScript", 3⟩, ⟨"TypeScript", 2⟩,
          ⟨"Python", 2⟩, ⟨"PHP", 2⟩, ⟨"Others", 2⟩], 15⟩ ∧
    ((aggregateLanguages MOCK_REPOS).topLanguages.map
        TopLanguageEntry.count).sum = 15 := by
  have hc : countsOf MOCK_REPOS
      = [("JavaScript", 3), ("TypeScript", 2), ("Python", 2), ("HTML", 1),
         ("CSS", 1), ("PHP", 2), ("Ruby", 4)] := by
    decide
  have hs : sortedLanguages MOCK_REPOS
      = [("Ruby", 4), ("JavaScript", 3), ("TypeScript", 2), ("Python", 2),
         ("PHP", 2), ("HTML", 1), ("CSS", 1)] := by
    rw [sortedLanguages, hc]
    simp [List.mergeSort, List.merge, List.splitInTwo, List.splitAt_eq,
      langLE]
  have hk : keptEntries MOCK_REPOS
      = [⟨"Ruby", 4⟩, ⟨"JavaScript", 3⟩, ⟨"TypeScript", 2⟩, ⟨"Python", 2⟩,
         ⟨"PHP", 2⟩] := by
    rw [keptEntries, hs]
    rfl
  have htot : totalCountOf MOCK_REPOS = 15 := by decide
  have htop : topSumOf MOCK_REPOS = 13 := by
    rw [topSumOf, hk]
    rfl
  have heq : aggregateLanguages MOCK_REPOS
      = ⟨[⟨"Ruby", 4⟩, ⟨"JavaScript", 3⟩, ⟨"TypeScript", 2⟩,
          ⟨"Python", 2⟩, ⟨"PHP", 2⟩, ⟨"Others", 2⟩], 15⟩ := by
    have hcond : topSumOf MOCK_REPOS < totalCountOf MOCK_REPOS := by
      rw [htop, htot]; omega
    simp [aggregateLanguages, hcond, hk, htot, htop]
  exact ⟨heq, by rw [heq]; rfl⟩

/-! Claim theorems about control flow and error handling -/

/-- C3. If mock mode is not enabled and the identity (`GITHUB_USER`)
is absent, the run fails with the configuration error, exits with code 1
and writes no file; if mock mode is enabled, the identity is never
required and the fixture list is returned without any network access (the
result does not depend on the response). -/
theorem C3_identity_required
    (chartMarkup legendMarkup : List TopLanguageEntry → Nat → String)
    (cfg : Config) (resp resp' : HttpResponse) :
    (cfg.mockData = false → userMissing cfg = true →
      main chartMarkup legendMarkup cfg resp
          = .failed (.ConfigurationError
              "GITHUB_USER environment variable is required.")
        ∧ exitCode (main chartMarkup legendMarkup cfg resp) = 1
        ∧ filesWritten (main chartMarkup legendMarkup cfg resp) = []) ∧
    (cfg.mockData = true →
      getRepositories cfg resp = .ok MOCK_REPOS
        ∧ getRepositories cfg resp = getRepositories cfg resp') := by
  constructor
  · intro hm hu
    have hget : getRepositories cfg resp
        = .error (.ConfigurationError
            "GITHUB_USER environment variable is required.") := by
      simp [getRepositories, hm, hu]
    refine ⟨?_, ?_, ?_⟩ <;> simp [main, hget, exitCode, filesWritten]
  · intro hm
    constructor <;> simp [getRepositories, hm]

/-- Witness for C3: a non-mock configuration with no identity fails with
the configuration error, and a mock configuration with no identity still
returns the fixture list. -/
theorem C3_identity_required_witness :
    main (fun _ _ => "") (fun _ _ => "")
        ⟨none, none, "adaptive", false⟩ ⟨true, 200, "OK", some []⟩
      = .failed (.ConfigurationError
          "GITHUB_USER environment variable is required.")
    ∧ getRepositories ⟨none, none, "adaptive", true⟩
        ⟨true, 200, "OK", some []⟩ = .ok MOCK_REPOS := by
  refine ⟨?_, ?_⟩
  · exact ((C3_identity_required (fun _ _ => "") (fun _ _ => "")
      ⟨none, none, "adaptive", false⟩ ⟨true, 200, "OK", some []⟩
      ⟨true, 200, "OK", some []⟩).1 rfl rfl).1
  · exact ((C3_identity_required (fun _ _ => "") (fun _ _ => "")
      ⟨none, none, "adaptive", true⟩ ⟨true, 200, "OK", some []⟩
      ⟨true, 200, "OK", some []⟩).2 rfl).1

/-- C4. A non-success HTTP response fails the run with the remote
fetch error carrying the HTTP status and status text; the process exits
with code 1, no file is written, and the error message contains the
status code and the status text. -/
theorem C4_remote_fetch_error
    (chartMarkup legendMarkup : List TopLanguageEntry → Nat → String)
    (cfg : Config) (resp : HttpResponse)
    (hm : cfg.mockData = false) (hu : userMissing cfg = false)
    (hok : resp.ok = false) :
    main chartMarkup legendMarkup cfg resp
        = .failed (.RemoteFetchError resp.status resp.statusText)
      ∧ exitCode (main chartMarkup legendMarkup cfg resp) = 1
      ∧ filesWritten (main chartMarkup legendMarkup cfg resp) = []
      ∧ (RunError.RemoteFetchError resp.status resp.statusText).message
          = "Failed to fetch repos: " ++ toString resp.status ++ " "
            ++ resp.statusText
      ∧ occursIn (toString resp.status)
          (RunError.RemoteFetchError resp.status resp.statusText).message
      ∧ occursIn resp.statusText
          (RunError.RemoteFetchError resp.status resp.statusText).message := by
  have hget : getRepositories cfg resp
      = .error (.RemoteFetchError resp.status resp.statusText) := by
    simp [getRepositories, hm, hu, hok]
  refine ⟨?_, ?_, ?_, ?_, ?_, ?_⟩
  · simp [main, hget]
  · simp [main, hget, exitCode]
  · simp [main, hget, filesWritten]
  · simp [RunError.message]
  · refine ⟨"Failed to fetch repos: ".data,
      (" " ++ resp.statusText).data, ?_⟩
    simp [RunError.message, String.data_append]
  · refine ⟨("Failed to fetch repos: " ++ toString resp.status ++ " ").data,
      [], ?_⟩
    simp [RunError.message, String.data_append]

/-- Witness for C4: a 404 response yields the remote fetch error whose
message mentions "404". -/
theorem C4_remote_fetch_error_witness :
    main (fun _ _ => "") (fun _ _ => "")
        ⟨some "octocat", none, "adaptive", false⟩
        ⟨false, 404, "Not Found", none⟩
      = .failed (.RemoteFetchError 404 "Not Found")
    ∧ (RunError.RemoteFetchError 404 "Not Found").message
        = "Failed to fetch repos: 404 Not Found"
    ∧ occursIn "404" (RunError.RemoteFetchError 404 "Not Found").message := by
  have h := C4_remote_fetch_error (fun _ _ => "") (fun _ _ => "")
    ⟨some "octocat", none, "adaptive", false⟩
    ⟨false, 404, "Not Found", none⟩ rfl (by decide) rfl
  exact ⟨h.1, by decide, h.2.2.2.2.1⟩

/-- C5. When `totalCount` is 0 the run writes no file, logs the
informational message and exits with code 0; and this is the sole path
with exit code 0 and no file written. -/
theorem C5_zero_total_no_output
    (chartMarkup legendMarkup : List TopLanguageEntry → Nat → String)
    (cfg : Config) (resp : HttpResponse) :
    (∀ repos, getRepositories cfg resp = .ok repos →
      (aggregateLanguages repos).totalCount = 0 →
        main chartMarkup legendMarkup cfg resp
            = .noOutput "No languages found."
          ∧ exitCode (main chartMarkup legendMarkup cfg resp) = 0
          ∧ filesWritten (main chartMarkup legendMarkup cfg resp) = []) ∧
    (exitCode (main chartMarkup legendMarkup cfg resp) = 0 →
     filesWritten (main chartMarkup legendMarkup cfg resp) = [] →
      ∃ repos, getRepositories cfg resp = .ok repos
        ∧ (aggregateLanguages repos).totalCount = 0
        ∧ main chartMarkup legendMarkup cfg resp
            = .noOutput "No languages found.") := by
  constructor
  · intro repos hget h0
    refine ⟨?_, ?_, ?_⟩ <;> simp [main, hget, h0, exitCode, filesWritten]
  · intro hexit hfiles
    cases hget : getRepositories cfg resp with
    | error e =>
        have hmain : main chartMarkup legendMarkup cfg resp = .failed e := by
          simp [main, hget]
        rw [hmain] at hexit
        simp [exitCode] at hexit
    | ok repos =>
        by_cases h0 : (aggregateLanguages repos).totalCount = 0
        · exact ⟨repos, rfl, h0, by simp [main, hget, h0]⟩
        · have hmain : main chartMarkup legendMarkup cfg resp
              = .wroteFile "stats.svg"
                (generateSVG cfg.themeMode
                  (chartMarkup (aggregateLanguages repos).topLanguages
                    (aggregateLanguages repos).totalCount)
                  (legendMarkup (aggregateLanguages repos).topLanguages
                    (aggregateLanguages repos).totalCount)) := by
            simp [main, hget, h0]
          rw [hmain] at hfiles
          simp [filesWritten] at hfiles

/-- Witness for C5: an empty parsed repository list gives `totalCount`
0, the logged no-op outcome, exit code 0 and no file. -/
theorem C5_zero_total_no_output_witness :
    main (fun _ _ => "") (fun _ _ => "")
        ⟨some "octocat", none, "adaptive", false⟩ ⟨true, 200, "OK", some []⟩
      = .noOutput "No languages found."
    ∧ exitCode (main (fun _ _ => "") (fun _ _ => "")
        ⟨some "octocat", none, "adaptive", false⟩
        ⟨true, 200, "OK", some []⟩) = 0 := by
  have h := (C5_zero_total_no_output (fun _ _ => "") (fun _ _ => "")
    ⟨some "octocat", none, "adaptive", false⟩
    ⟨true, 200, "OK", some []⟩).1 [] rfl
    (by rw [aggregate_totalCount]; rfl)
  exact ⟨h.1, h.2.1⟩

/-! Lemmas about the donut geometry -/

theorem cumAngle_zero (total : Nat) (data : List TopLanguageEntry) :
    cumAngle total data 0 = 0 := by
  simp [cumAngle]

theorem cumAngle_cons (total : Nat) (d : TopLanguageEntry)
    (rest : List TopLanguageEntry) (j : Nat) :
    cumAngle total (d :: rest) (j + 1)
      = sweepOf total d + cumAngle total rest j := by
  simp [cumAngle]

theorem cumAngle_succ (total : Nat) (data : List TopLanguageEntry)
    (j : Nat) (hd : j < data.length) :
    cumAngle total data (j + 1)
      = cumAngle total data j + sweepOf total (data.get ⟨j, hd⟩) := by
  unfold cumAngle
  rw [List.map_take, List.map_take,
    List.sum_take_succ (data.map (sweepOf total)) j (by simpa using hd)]
  simp [List.get_eq_getElem]

theorem donutWedges_length (total : Nat) :
    ∀ (data : List TopLanguageEntry) (i : Nat) (off : ℚ),
      (donutWedges total data i off).length = data.length := by
  intro data
  induction data with
  | nil => intro i off; rfl
  | cons d rest ih =>
      intro i off
      simp only [donutWedges, List.length_cons, ih]

theorem donutWedges_get (total : Nat) :
    ∀ (data : List TopLanguageEntry) (i : Nat) (off : ℚ) (j : Nat)
      (hj : j < (donutWedges total data i off).length)
      (hd : j < data.length),
      (donutWedges total data i off).get ⟨j, hj⟩ =
        { startAngle := off + cumAngle total data j
          endAngle := off + cumAngle total data (j + 1)
          largeArc :=
            if 1 < sweepOf total (data.get ⟨j, hd⟩) then 1 else 0
          sweepFlag := 1
          colorIdx := (i + j) % 6 } := by
  intro data
  induction data with
  | nil => intro i off j hj hd; simp at hd
  | cons d rest ih =>
      intro i off j hj hd
      cases j with
      | zero =>
          simp [donutWedges, cumAngle_zero, cumAngle_cons, sweepOf]
      | succ j =>
          have hj' : j < (donutWedges total rest (i + 1)
              (off + sweepOf total d)).length := by
            rw [donutWedges_length] at hj ⊢
            simpa using Nat.lt_of_succ_lt_succ hj
          have hd' : j < rest.length := Nat.lt_of_succ_lt_succ hd
          have hih := ih (i + 1) (off + sweepOf total d) j hj' hd'
          have hstep : (donutWedges total (d :: rest) i off).get
              ⟨j + 1, hj⟩
              = (donutWedges total rest (i + 1)
                  (off + sweepOf total d)).get ⟨j, hj'⟩ := rfl
          rw [hstep, hih]
          simp only [cumAngle_cons, Wedge.mk.injEq, List.get_cons_succ]
          refine ⟨by ring, by ring, trivial, trivial, by omega⟩

/-- The palette index of the `j`-th legend row (line 242). -/
theorem generateLegend_get (data : List TopLanguageEntry) (total : Nat)
    (j : Nat) (hl : j < (generateLegend data total).length)
    (hd : j < data.length) :
    (generateLegend data total).get ⟨j, hl⟩ =
      { y := 50 + j * 25
        colorIdx := j % 6
        lang := (data.get ⟨j, hd⟩).lang
        percent := (((data.get ⟨j, hd⟩).count : ℚ) / (total : ℚ)) * 100 } := by
  unfold generateLegend at hl ⊢
  rw [List.get_eq_getElem]
  simp only [List.getElem_map]
  simp [List.enum_eq_enumFrom, List.get_eq_getElem]

/-! Claim theorems about the donut geometry -/

/-- C7. (Angles in units of π radians: the value `1` means π.)
The first wedge starts at `−π/2`; each entry's sweep is
`(count / totalCount) * 2π`; wedges are consumed in entry order, each
sweep starting exactly where the previous ended; the large-arc flag is 1
exactly when the sweep exceeds π, else 0; the outer-arc sweep-direction
flag is the constant 1 (clockwise). -/
theorem C7_donut_geometry (data : List TopLanguageEntry) (total : Nat)
    (ht : 0 < total) :
    (generateDonutChart data total).length = data.length ∧
    (∀ h0 : 0 < (generateDonutChart data total).length,
      ((generateDonutChart data total).get ⟨0, h0⟩).startAngle
        = -(1 / 2 : ℚ)) ∧
    (∀ j (hj : j < (generateDonutChart data total).length)
        (hd : j < data.length),
      ((generateDonutChart data total).get ⟨j, hj⟩).endAngle
          - ((generateDonutChart data total).get ⟨j, hj⟩).startAngle
        = (((data.get ⟨j, hd⟩).count : ℚ) / (total : ℚ)) * 2) ∧
    (∀ j (hj1 : j + 1 < (generateDonutChart data total).length)
        (hj : j < (generateDonutChart data total).length),
      ((generateDonutChart data total).get ⟨j + 1, hj1⟩).startAngle
        = ((generateDonutChart data total).get ⟨j, hj⟩).endAngle) ∧
    (∀ j (hj : j < (generateDonutChart data total).length)
        (hd : j < data.length),
      ((generateDonutChart data total).get ⟨j, hj⟩).largeArc
        = if 1 < (((data.get ⟨j, hd⟩).count : ℚ) / (total : ℚ)) * 2
          then 1 else 0) ∧
    (∀ j (hj : j < (generateDonutChart data total).length),
      ((generateDonutChart data total).get ⟨j, hj⟩).sweepFlag = 1) := by
  have hlen : (generateDonutChart data total).length = data.length :=
    donutWedges_length total data 0 (-(1 / 2 : ℚ))
  have hget : ∀ j (hj : j < (generateDonutChart data total).length)
      (hd : j < data.length),
      (generateDonutChart data total).get ⟨j, hj⟩ =
        { startAngle := -(1 / 2 : ℚ) + cumAngle total data j
          endAngle := -(1 / 2 : ℚ) + cumAngle total data (j + 1)
          largeArc :=
            if 1 < sweepOf total (data.get ⟨j, hd⟩) then 1 else 0
          sweepFlag := 1
          colorIdx := (0 + j) % 6 } := by
    intro j hj hd
    exact donutWedges_get total data 0 (-(1 / 2 : ℚ)) j hj hd
  refine ⟨hlen, ?_, ?_, ?_, ?_, ?_⟩
  · intro h0
    rw [hget 0 h0 (by omega)]
    simp [cumAngle_zero]
  · intro j hj hd
    rw [hget j hj hd]
    simp only [cumAngle_succ total data j hd, sweepOf]
    ring
  · intro j hj1 hj
    have hd1 : j + 1 < data.length := by omega
    have hd : j < data.length := by omega
    rw [hget (j + 1) hj1 hd1, hget j hj hd]
  · intro j hj hd
    rw [hget j hj hd]
    simp [sweepOf]
  · intro j hj
    have hd : j < data.length := by omega
    rw [hget j hj hd]

/-- Witness for C7: a singleton entry list over `totalCount = 1` has its
single wedge starting at `−π/2` with sweep `2π` (the value `2` in units
of π). -/
theorem C7_donut_geometry_witness :
    ((generateDonutChart [⟨"A", 1⟩] 1).get ⟨0, by decide⟩).startAngle
        = -(1 / 2 : ℚ)
    ∧ ((generateDonutChart [⟨"A", 1⟩] 1).get ⟨0, by decide⟩).endAngle
          - ((generateDonutChart [⟨"A", 1⟩] 1).get ⟨0, by decide⟩).startAngle
        = (((1 : Nat) : ℚ) / ((1 : Nat) : ℚ)) * 2 := by
  have h := C7_donut_geometry [⟨"A", 1⟩] 1 (by decide)
  exact ⟨h.2.1 (by decide), h.2.2.1 0 (by decide) (by decide)⟩

/-- C8. The donut wedge at position `i` and the legend row at
position `i` both use the theme palette at index `i mod 6`, so a wedge
and its legend row always agree in color. -/
theorem C8_palette_index (data : List TopLanguageEntry) (total : Nat)
    (j : Nat) (hw : j < (generateDonutChart data total).length)
    (hl : j < (generateLegend data total).length) :
    ((generateDonutChart data total).get ⟨j, hw⟩).colorIdx = j % 6 ∧
    ((generateLegend data total).get ⟨j, hl⟩).colorIdx = j % 6 ∧
    ((generateDonutChart data total).get ⟨j, hw⟩).colorIdx
      = ((generateLegend data total).get ⟨j, hl⟩).colorIdx := by
  have hd : j < data.length := by
    have := donutWedges_length total data 0 (-(1 / 2 : ℚ))
    rw [generateDonutChart] at hw
    omega
  have hget : (generateDonutChart data total).get ⟨j, hw⟩ =
      { startAngle := -(1 / 2 : ℚ) + cumAngle total data j
        endAngle := -(1 / 2 : ℚ) + cumAngle total data (j + 1)
        largeArc := if 1 < sweepOf total (data.get ⟨j, hd⟩) then 1 else 0
        sweepFlag := 1
        colorIdx := (0 + j) % 6 } :=
    donutWedges_get total data 0 (-(1 / 2 : ℚ)) j hw hd
  have h1 : ((generateDonutChart data total).get ⟨j, hw⟩).colorIdx
      = j % 6 := by
    rw [hget]
    simp
  have h2 : ((generateLegend data total).get ⟨j, hl⟩).colorIdx
      = j % 6 := by
    rw [generateLegend_get data total j hl hd]
  exact ⟨h1, h2, by rw [h1, h2]⟩

/-- Witness for C8: on a two-entry list both the second wedge and the
second legend row use palette index 1. -/
theorem C8_palette_index_witness :
    ((generateDonutChart [⟨"A", 2⟩, ⟨"B", 1⟩] 3).get ⟨1, by decide⟩).colorIdx
        = 1 % 6
    ∧ ((generateLegend [⟨"A", 2⟩, ⟨"B", 1⟩] 3).get ⟨1, by decide⟩).colorIdx
        = 1 % 6 := by
  have h := C8_palette_index [⟨"A", 2⟩, ⟨"B", 1⟩] 3 1 (by decide) (by decide)
  exact ⟨h.1, h.2.1⟩

/-! Substring machinery for the theming claim -/

theorem prefix_append_split {α : Type} {p a b : List α}
    (h : p <+: a ++ b) :
    p <+: a ∨ ∃ p', p = a ++ p' ∧ p' <+: b := by
  rcases h with ⟨t, ht⟩
  rcases List.append_eq_append_iff.mp ht with ⟨a', ha, _⟩ | ⟨c', hc, hb⟩
  · exact Or.inl ⟨a', ha.symm⟩
  · exact Or.inr ⟨c', hc, ⟨t, hb.symm⟩⟩

theorem infix_append_split {α : Type} [DecidableEq α] {p a b : List α}
    (h : p <:+: a ++ b) :
    p <:+: a ∨ p <:+: b ∨
      ∃ k, 0 < k ∧ k < p.length ∧ p.take k <:+ a ∧ p.drop k <+: b := by
  induction a with
  | nil => exact Or.inr (Or.inl (by simpa using h))
  | cons x xs ih =>
      rw [List.cons_append] at h
      rcases List.infix_cons_iff.mp h with hpre | hinf
      · rw [← List.cons_append] at hpre
        rcases prefix_append_split hpre with
          hp | ⟨p', hpeq, hp'⟩
        · exact Or.inl hp.isInfix
        · by_cases hp0 : p' = []
          · subst hp0
            rw [List.append_nil] at hpeq
            exact Or.inl (hpeq ▸ List.infix_refl _)
          · refine Or.inr (Or.inr ⟨(x :: xs).length, by simp, ?_, ?_, ?_⟩)
            · rw [hpeq, List.length_append]
              have := List.length_pos.mpr hp0
              omega
            · rw [hpeq, List.take_left]
            · rw [hpeq, List.drop_left]
              exact hp'
      · rcases ih hinf with h1 | h2 | ⟨k, hk0, hkl, hsuf, hpre2⟩
        · exact Or.inl (List.infix_cons h1)
        · exact Or.inr (Or.inl h2)
        · exact Or.inr (Or.inr
            ⟨k, hk0, hkl, hsuf.trans (List.suffix_cons x xs), hpre2⟩)

theorem hashFree_spec (s : String) (h : hashFree s = true) :
    ∀ c ∈ s.data, c ≠ '#' := by
  simpa [hashFree, List.all_eq_true] using h

theorem colorAbsent_spec {v T : String} (h : colorAbsent v T = true) :
    ¬ v.data <:+: T.data ∧
    (∀ k, k < v.data.length → 0 < k → ¬ v.data.take k <:+ T.data) ∧
    '#' ∈ v.data := by
  have h' := h
  simp only [colorAbsent, Bool.and_eq_true, decide_eq_true_eq] at h'
  exact ⟨h'.1.1, h'.1.2, h'.2⟩

theorem not_occursIn_append {v : String} {T R : List Char}
    (hT : ¬ v.data <:+: T)
    (hspan : ∀ k, k < v.data.length → 0 < k → ¬ v.data.take k <:+ T)
    (hp : '#' ∈ v.data) (hR : ∀ c ∈ R, c ≠ '#') :
    ¬ v.data <:+: T ++ R := by
  intro h
  rcases infix_append_split h with h1 | h2 | ⟨k, hk0, hkl, hsuf, _⟩
  · exact hT h1
  · exact hR '#' (h2.subset hp) rfl
  · exact hspan k hkl hk0 hsuf

theorem not_infix_append_hashfree_left {p A B : List Char}
    (hp : p.head? = some '#') (hA : ∀ c ∈ A, c ≠ '#')
    (hB : ¬ p <:+: B) : ¬ p <:+: A ++ B := by
  intro h
  obtain ⟨c, cs, rfl⟩ : ∃ c cs, p = c :: cs := by
    cases p with
    | nil => simp at hp
    | cons c cs => exact ⟨c, cs, rfl⟩
  have hc : c = '#' := by simpa using hp
  subst hc
  rcases infix_append_split h with h1 | h2 | ⟨k, hk0, hkl, hsuf, _⟩
  · exact hA '#' (h1.subset (List.mem_cons_self _ _)) rfl
  · exact hB h2
  · obtain ⟨k', rfl⟩ : ∃ k', k = k' + 1 := ⟨k - 1, by omega⟩
    have hmem : '#' ∈ ('#' :: cs).take (k' + 1) := by
      simp [List.take_cons]
    exact hA '#' (hsuf.subset hmem) rfl

/-- The full document, decomposed into the fixed template pieces around
`styleContent`, the donut markup and the legend markup. -/
theorem generateSVG_decomp (mode chart legend : String) :
    (generateSVG mode chart legend).data
      = svgOpenTag.data ++ (styleHead.data ++ ((styleContent mode).data
        ++ (styleTail.data ++ (rectBgMarkup.data
        ++ (decorationsMarkup.data ++ (titleOpenG.data
        ++ (chart.data ++ (svgMid.data
        ++ (legend.data ++ svgPost.data))))))))) := by
  simp [generateSVG, svgPre, styleBlock]

theorem not_occursIn_generateSVG {mode chart legend v : String}
    (hv : colorAbsent v (styleContent mode) = true)
    (hh : v.data.head? = some '#')
    (hc : hashFree chart = true) (hl : hashFree legend = true) :
    ¬ occursIn v (generateSVG mode chart legend) := by
  obtain ⟨h1, h2, h3⟩ := colorAbsent_spec hv
  rw [occursIn, generateSVG_decomp]
  apply not_infix_append_hashfree_left hh (hashFree_spec svgOpenTag (by decide))
  apply not_infix_append_hashfree_left hh (hashFree_spec styleHead (by decide))
  apply not_occursIn_append h1 h2 h3
  intro c hcmem
  simp only [List.mem_append] at hcmem
  rcases hcmem with h | h | h | h | h | h | h | h
  · exact hashFree_spec styleTail (by decide) c h
  · exact hashFree_spec rectBgMarkup (by decide) c h
  · exact hashFree_spec decorationsMarkup (by decide) c h
  · exact hashFree_spec titleOpenG (by decide) c h
  · exact hashFree_spec _ hc c h
  · exact hashFree_spec svgMid (by decide) c h
  · exact hashFree_spec _ hl c h
  · exact hashFree_spec svgPost (by decide) c h

theorem occursIn_generateSVG_of_styleContent {mode chart legend v : String}
    (h : occursIn v (styleContent mode)) :
    occursIn v (generateSVG mode chart legend) := by
  rw [occursIn] at h ⊢
  rw [generateSVG_decomp]
  refine h.trans ?_
  refine List.IsInfix.trans ?_ (List.suffix_append _ _).isInfix
  exact List.infix_append' _ _ _

/-! Claim theorem about theming -/

/-- C6. With a `'#'`-free donut and legend markup (the script's
markup references colors only through CSS variables), the rendered
document contains every light color value and no dark color value when
`themeMode = "light"`, every dark and no light value when `"dark"`, and
both sets when `"adaptive"`; adaptively, the style is the default
(light) scope followed by the dark scope, the light values sit in the
default scope, the dark values sit only in the dark scope, and the dark
scope starts with the `@media (prefers-color-scheme: dark)` condition on
the viewer's system color-scheme preference. -/
theorem C6_theme_palette (chart legend : String)
    (hc : hashFree chart = true) (hl : hashFree legend = true) :
    (∀ v ∈ lightValues, occursIn v (generateSVG "light" chart legend)) ∧
    (∀ v ∈ darkValues, ¬ occursIn v (generateSVG "light" chart legend)) ∧
    (∀ v ∈ darkValues, occursIn v (generateSVG "dark" chart legend)) ∧
    (∀ v ∈ lightValues, ¬ occursIn v (generateSVG "dark" chart legend)) ∧
    (∀ v ∈ lightValues ++ darkValues,
      occursIn v (generateSVG "adaptive" chart legend)) ∧
    styleContent "adaptive" = adaptiveDefaultScope ++ adaptiveDarkScope ∧
    (∀ v ∈ lightValues, occursIn v adaptiveDefaultScope) ∧
    (∀ v ∈ darkValues, ¬ occursIn v adaptiveDefaultScope) ∧
    (∀ v ∈ darkValues, occursIn v adaptiveDarkScope) ∧
    "@media (prefers-color-scheme: dark)".data <+: adaptiveDarkScope.data := by
  refine ⟨?_, ?_, ?_, ?_, ?_, by simp [styleContent], ?_, ?_, ?_, by decide⟩
  · intro v hv
    simp only [lightValues, themeValues, THEME_light, List.mem_cons,
      List.not_mem_nil, or_false] at hv
    rcases hv with rfl | rfl | rfl | rfl | rfl | rfl | rfl | rfl | rfl <;>
      exact occursIn_generateSVG_of_styleContent (by decide)
  · intro v hv
    simp only [darkValues, themeValues, THEME_dark, List.mem_cons,
      List.not_mem_nil, or_false] at hv
    rcases hv with rfl | rfl | rfl | rfl | rfl | rfl | rfl | rfl | rfl <;>
      exact not_occursIn_generateSVG (by decide) (by decide) hc hl
  · intro v hv
    simp only [darkValues, themeValues, THEME_dark, List.mem_cons,
      List.not_mem_nil, or_false] at hv
    rcases hv with rfl | rfl | rfl | rfl | rfl | rfl | rfl | rfl | rfl <;>
      exact occursIn_generateSVG_of_styleContent (by decide)
  · intro v hv
    simp only [lightValues, themeValues, THEME_light, List.mem_cons,
      List.not_mem_nil, or_false] at hv
    rcases hv with rfl | rfl | rfl | rfl | rfl | rfl | rfl | rfl | rfl <;>
      exact not_occursIn_generateSVG (by decide) (by decide) hc hl
  · intro v hv
    rcases List.mem_append.mp hv with h | h
    · simp only [lightValues, themeValues, THEME_light, List.mem_cons,
        List.not_mem_nil, or_false] at h
      rcases h with rfl | rfl | rfl | rfl | rfl | rfl | rfl | rfl | rfl <;>
        exact occursIn_generateSVG_of_styleContent (by decide)
    · simp only [darkValues, themeValues, THEME_dark, List.mem_cons,
        List.not_mem_nil, or_false] at h
      rcases h with rfl | rfl | rfl | rfl | rfl | rfl | rfl | rfl | rfl <;>
        exact occursIn_generateSVG_of_styleContent (by decide)
  · intro v hv
    simp only [lightValues, themeValues, THEME_light, List.mem_cons,
      List.not_mem_nil, or_false] at hv
    rcases hv with rfl | rfl | rfl | rfl | rfl | rfl | rfl | rfl | rfl <;>
      decide
  · intro v hv
    simp only [darkValues, themeValues, THEME_dark, List.mem_cons,
      List.not_mem_nil, or_false] at hv
    rcases hv with rfl | rfl | rfl | rfl | rfl | rfl | rfl | rfl | rfl <;>
      decide
  · intro v hv
    simp only [darkValues, themeValues, THEME_dark, List.mem_cons,
      List.not_mem_nil, or_false] at hv
    rcases hv with rfl | rfl | rfl | rfl | rfl | rfl | rfl | rfl | rfl <;>
      decide

/-- Witness for C6: with empty (trivially `'#'`-free) donut and legend
markup, the light document contains the light palette's first color and
not the dark palette's first color. -/
theorem C6_theme_palette_witness :
    occursIn "#4caf50" (generateSVG "light" "" "")
    ∧ ¬ occursIn "#66bb6a" (generateSVG "light" "" "") := by
  have h := C6_theme_palette "" "" (by decide) (by decide)
  exact ⟨h.1 "#4caf50" (by decide), h.2.1 "#66bb6a" (by decide)⟩

/-! First-seen key order and sort stability (tie-breaking) -/

theorem firstSeenFrom_ext : ∀ (ls : List String) (s s' : List String),
    (∀ x, x ∈ s ↔ x ∈ s') → firstSeenFrom s ls = firstSeenFrom s' ls := by
  intro ls
  induction ls with
  | nil => intro s s' _; rfl
  | cons k ks ih =>
      intro s s' h
      by_cases hk : k ∈ s
      · simp only [firstSeenFrom, if_pos hk, if_pos ((h k).mp hk)]
        exact ih _ _ h
      · simp only [firstSeenFrom, if_neg hk,
          if_neg (fun hc => hk ((h k).mpr hc))]
        rw [ih (k :: s) (k :: s')]
        intro x
        simp [List.mem_cons, h x]

theorem mem_firstSeenFrom : ∀ (ls : List String) {seen : List String}
    {a : String}, a ∈ ls → a ∉ seen → a ∈ firstSeenFrom seen ls := by
  intro ls
  induction ls with
  | nil => intro seen a ha; simp at ha
  | cons k ks ih =>
      intro seen a ha hs
      by_cases hk : k ∈ seen
      · simp only [firstSeenFrom, if_pos hk]
        rcases List.mem_cons.mp ha with rfl | ha'
        · exact absurd hk hs
        · exact ih ha' hs
      · simp only [firstSeenFrom, if_neg hk]
        rcases List.mem_cons.mp ha with rfl | ha'
        · exact List.mem_cons_self _ _
        · by_cases hak : a = k
          · subst hak; exact List.mem_cons_self _ _
          · exact List.mem_cons_of_mem _
              (ih ha' (by simp [List.mem_cons, hak, hs]))

theorem keys_foldl_eq (ls : List String) :
    ∀ acc : List (String × Nat),
      (ls.foldl bump acc).map Prod.fst
        = acc.map Prod.fst ++ firstSeenFrom (acc.map Prod.fst) ls := by
  induction ls with
  | nil => intro acc; simp [firstSeenFrom]
  | cons k ks ih =>
      intro acc
      rw [List.foldl_cons, ih, keys_bump]
      by_cases hk : k ∈ acc.map Prod.fst
      · rw [if_pos hk]
        simp only [firstSeenFrom, if_pos hk]
      · rw [if_neg hk]
        simp only [firstSeenFrom, if_neg hk]
        rw [firstSeenFrom_ext ks (acc.map Prod.fst ++ [k])
          (k :: acc.map Prod.fst)
          (by intro x; simp [List.mem_append, List.mem_cons]; tauto)]
        simp

theorem keys_countsOf_eq (repos : List Repo) :
    (countsOf repos).map Prod.fst = firstSeenFrom [] (langsOf repos) := by
  rw [countsOf, keys_foldl_eq]
  rfl

theorem firstSeen_pair_sublist :
    ∀ (ls : List String) (seen : List String) (a b : String),
      a ≠ b → a ∈ ls → b ∈ ls → a ∉ seen → b ∉ seen →
      firstIdx a ls < firstIdx b ls →
      List.Sublist [a, b] (firstSeenFrom seen ls) := by
  intro ls
  induction ls with
  | nil => intro seen a b _ ha; simp at ha
  | cons k ks ih =>
      intro seen a b hab ha hb hsa hsb hlt
      by_cases hka : k = a
      · subst hka
        simp only [firstSeenFrom, if_neg hsa]
        have hbks : b ∈ ks := by
          rcases List.mem_cons.mp hb with h | h
          · exact absurd h.symm hab
          · exact h
        have hbseen : b ∉ k :: seen := by
          simp only [List.mem_cons, not_or]
          exact ⟨fun h => hab h.symm, hsb⟩
        have hbmem := mem_firstSeenFrom ks hbks hbseen
        exact (List.cons_sublist_cons).mpr
          (List.singleton_sublist.mpr hbmem)
      · by_cases hkb : k = b
        · subst hkb
          simp [firstIdx, hka] at hlt
        · have ha' : a ∈ ks := by
            rcases List.mem_cons.mp ha with h | h
            · exact absurd h.symm hka
            · exact h
          have hb' : b ∈ ks := by
            rcases List.mem_cons.mp hb with h | h
            · exact absurd h.symm hkb
            · exact h
          have hlt' : firstIdx a ks < firstIdx b ks := by
            simp only [firstIdx, if_neg hka, if_neg hkb] at hlt
            omega
          by_cases hks : k ∈ seen
          · simp only [firstSeenFrom, if_pos hks]
            exact ih seen a b hab ha' hb' hsa hsb hlt'
          · simp only [firstSeenFrom, if_neg hks]
            refine List.Sublist.cons _ ?_
            refine ih (k :: seen) a b hab ha' hb' ?_ ?_ hlt'
            · simp only [List.mem_cons, not_or]
              exact ⟨fun h => hka h.symm, hsa⟩
            · simp only [List.mem_cons, not_or]
              exact ⟨fun h => hkb h.symm, hsb⟩

theorem pair_sublist_of_keys :
    ∀ {l : List (String × Nat)} {a b : String} {ca cb : Nat},
      (l.map Prod.fst).Nodup → List.Sublist [a, b] (l.map Prod.fst) →
      (a, ca) ∈ l → (b, cb) ∈ l →
      List.Sublist [(a, ca), (b, cb)] l := by
  intro l
  induction l with
  | nil => intro a b ca cb _ _ hma; simp at hma
  | cons p rest ih =>
      intro a b ca cb hnd hk hma hmb
      obtain ⟨k, c⟩ := p
      simp only [List.map_cons, List.nodup_cons] at hnd
      have habne : a ≠ b := by
        have hnd2 : ([a, b] : List String).Nodup :=
          hk.nodup (by simpa [List.nodup_cons] using hnd)
        simp only [List.nodup_cons, List.mem_singleton] at hnd2
        exact hnd2.1
      rw [List.map_cons] at hk
      cases hk with
      | cons _ hk' =>
          have hamem : a ∈ rest.map Prod.fst :=
            hk'.subset (List.mem_cons_self _ _)
          have hbmem : b ∈ rest.map Prod.fst :=
            hk'.subset (List.mem_cons_of_mem _ (List.mem_cons_self _ _))
          have hma' : (a, ca) ∈ rest := by
            rcases List.mem_cons.mp hma with h | h
            · injection h with h1 _
              subst h1
              exact absurd hamem hnd.1
            · exact h
          have hmb' : (b, cb) ∈ rest := by
            rcases List.mem_cons.mp hmb with h | h
            · injection h with h1 _
              subst h1
              exact absurd hbmem hnd.1
            · exact h
          exact List.Sublist.cons _ (ih hnd.2 hk' hma' hmb')
      | cons₂ _ hk' =>
          -- the heads coincide: the key of the head entry is `a`
          dsimp only at hma habne ⊢
          have hca : c = ca := by
            rcases List.mem_cons.mp hma with h | h
            · injection h with _ h2
              exact h2.symm
            · exact absurd (List.mem_map.mpr ⟨(k, ca), h, rfl⟩) hnd.1
          subst hca
          have hmb' : (b, cb) ∈ rest := by
            rcases List.mem_cons.mp hmb with h | h
            · injection h with h1 _
              exact absurd h1.symm habne
            · exact h
          exact (List.cons_sublist_cons).mpr
            (List.singleton_sublist.mpr hmb')

theorem langLE_trans (x y z : String × Nat) :
    langLE x y → langLE y z → langLE x z := by
  simp only [langLE, decide_eq_true_eq]
  omega

theorem langLE_total (x y : String × Nat) :
    langLE x y || langLE y x := by
  simp only [langLE]
  by_cases h : y.2 ≤ x.2 <;> simp [h] <;> omega

/-- C10. Tie-breaking is deterministic first-seen-wins: for any two
distinct languages with equal counts, the one whose first occurrence
appears earlier in the input record sequence precedes the other in the
sorted language list — the counting map inserts keys in first-occurrence
order and the descending-count sort is stable. -/
theorem C10_stable_tiebreak (repos : List Repo) (a b : String) (c : Nat)
    (hab : a ≠ b)
    (hma : (a, c) ∈ countsOf repos) (hmb : (b, c) ∈ countsOf repos)
    (hfirst : firstIdx a (langsOf repos) < firstIdx b (langsOf repos)) :
    List.Sublist [(a, c), (b, c)] (sortedLanguages repos) := by
  have hka : a ∈ (countsOf repos).map Prod.fst :=
    List.mem_map.mpr ⟨(a, c), hma, rfl⟩
  have hkb : b ∈ (countsOf repos).map Prod.fst :=
    List.mem_map.mpr ⟨(b, c), hmb, rfl⟩
  have hal : a ∈ langsOf repos := (mem_keys_countsOf repos a).mp hka
  have hbl : b ∈ langsOf repos := (mem_keys_countsOf repos b).mp hkb
  have hkeys : List.Sublist [a, b] ((countsOf repos).map Prod.fst) := by
    rw [keys_countsOf_eq]
    exact firstSeen_pair_sublist (langsOf repos) [] a b hab hal hbl
      (by simp) (by simp) hfirst
  have hpair : List.Sublist [(a, c), (b, c)] (countsOf repos) :=
    pair_sublist_of_keys (nodup_keys_countsOf repos) hkeys hma hmb
  exact List.pair_sublist_mergeSort langLE_trans langLE_total
    (by simp [langLE]) hpair

/-- Witness for C10: with two records tied at count 1, the
first-encountered language precedes the other in the sorted list. -/
theorem C10_stable_tiebreak_witness :
    List.Sublist [("TypeScript", 1), ("Python", 1)]
      (sortedLanguages [⟨some "TypeScript"⟩, ⟨some "Python"⟩]) :=
  C10_stable_tiebreak [⟨some "TypeScript"⟩, ⟨some "Python"⟩]
    "TypeScript" "Python" 1 (by decide) (by decide) (by decide) (by decide)

end MyStats
